import Mathlib

/-!
Verification development for the TraceAtlas kernel-extraction tool.

The definitions below are a shallow embedding of the relevant parts of
`src/tik/tik/Kernel.cpp` and `src/Utilities/KernelHasher.cpp`.  Basic blocks
of the input module are identified by natural numbers; a control-flow graph
is a function from block identifiers to a `BB` record carrying the successor
list of the block's terminator, whether the terminator is a `ReturnInst`,
and the parent blocks of the call sites of the block's containing function
(the information `GetExits` reads through `base->users()`).  The iteration
order of the C++ `std::set<BasicBlock *>` containers is pointer order, which
is unspecified; the embedding therefore takes the region `S` as an explicit
list, covering every possible iteration order.
-/

namespace Tik

/-- Insertion into a pointer set (`std::set::insert`): a no-op when the
element is already present, otherwise the element is added. -/
def setInsert (l : List Nat) (x : Nat) : List Nat :=
  if x ∈ l then l else l ++ [x]

/-- Erasure from a pointer set (`std::set::erase`). -/
def setErase (l : List Nat) (x : Nat) : List Nat :=
  l.filter (fun y => y ≠ x)

/-- Lookup in an association list (`std::map::find`). -/
def lookupA (l : List (Nat × Nat)) (k : Nat) : Option Nat :=
  (l.find? (fun p => p.1 = k)).map (fun p => p.2)

/-- Write through `std::map::operator[]`: overwrite the binding when the key
is present, otherwise append a fresh binding. -/
def updateA (l : List (Nat × Nat)) (k v : Nat) : List (Nat × Nat) :=
  if (l.find? (fun p => p.1 = k)).isSome then
    l.map (fun p => if p.1 = k then (k, v) else p)
  else l ++ [(k, v)]

/-- Positional lookup in a list (`operator[]` on a vector, partial). -/
def listAt {α : Type} : List α → Nat → Option α
  | [], _ => none
  | x :: _, 0 => some x
  | _ :: xs, n + 1 => listAt xs n

/-- The list `[s, s+1, ..., s+n-1]`. -/
def natRangeFrom : Nat → Nat → List Nat
  | _, 0 => []
  | s, n + 1 => s :: natRangeFrom (s + 1) n

/-- One basic block of the input module, as seen by the region analyses:
the successor blocks of its terminator, whether the terminator is a return
instruction, and the parent blocks of the call sites of the containing
function. -/
structure BB where
  succs : List Nat
  isRet : Bool
  callerBlocks : List Nat
deriving Repr, DecidableEq

/-! ### `Kernel::GetExits` (Kernel.cpp lines 1315-1363)

State of the enumeration: the running exit-id counter, the `coveredExits`
set, and the `ExitTarget` / `ExitMap` maps (as association lists in
insertion order). -/

structure ExitsState where
  exitId : Nat
  covered : List Nat
  exitTarget : List (Nat × Nat)
  exitMap : List (Nat × Nat)
deriving Repr, DecidableEq

/-- One candidate exit target `t` produced while processing `block`: either
an outside successor of `block`, or (for a returning block) the parent block
of an outside call site of the containing function.  Mirrors the body of the
two inner loops of `GetExits`: targets inside the region are ignored, an
already covered target is skipped, and a fresh target allocates a new exit
id, records it in `ExitTarget`, and writes `ExitMap[block]`. -/
def processExitSucc (blocks : List Nat) (block : Nat) (st : ExitsState) (t : Nat) :
    ExitsState :=
  if t ∈ blocks then st
  else if t ∈ st.covered then st
  else
    ⟨st.exitId + 1, st.covered ++ [t], st.exitTarget ++ [(st.exitId, t)],
     updateA st.exitMap block st.exitId⟩

/-- Processing of one block of the region in `GetExits`: all successors are
examined; when the block ends in a return, the parent blocks of the call
sites of its function are examined as well. -/
def getExitsStep (cfg : Nat → BB) (blocks : List Nat) (st : ExitsState) (block : Nat) :
    ExitsState :=
  if (cfg block).isRet then
    (cfg block).callerBlocks.foldl (processExitSucc blocks block)
      ((cfg block).succs.foldl (processExitSucc blocks block) st)
  else (cfg block).succs.foldl (processExitSucc blocks block) st

/-- `Kernel::GetExits` over the region `blocks` (given in iteration order). -/
def GetExits (cfg : Nat → BB) (blocks : List Nat) : ExitsState :=
  blocks.foldl (getExitsStep cfg blocks) ⟨0, [], [], []⟩

/-- The trailing `NoExit` check of `GetExits` (lines 1353-1356). -/
def GetExitsChecked (cfg : Nat → BB) (blocks : List Nat) : Except String ExitsState :=
  if (GetExits cfg blocks).exitId = 0 then
    Except.error "Tik Error: tik found no kernel exits"
  else Except.ok (GetExits cfg blocks)

/-- Every element of `covered` was recorded as the target of some exit id. -/
def exitsCoveredInv (st : ExitsState) : Prop :=
  ∀ x ∈ st.covered, ∃ id, (id, x) ∈ st.exitTarget

/-- Concrete region for claim C2: blocks 1 and 2 both branch to the outside
block 5. -/
def cfgC2 : Nat → BB := fun n =>
  match n with
  | 1 => ⟨[5], false, []⟩
  | 2 => ⟨[5], false, []⟩
  | _ => ⟨[], false, []⟩

/-! ### `Kernel::GetConditional` (Kernel.cpp lines 438-616)

Per-successor breadth-first search.  The search starts from one successor
`suc` of a candidate block `cond`, with `checked` initialised to
`{suc, cond}`.  A processed block with no successors sets the `exit` flag;
a successor equal to `cond` sets the `recurses` flag; a successor outside
the region sets the `exit` flag; only unchecked successors inside the
region are enqueued.  The queue can hold at most `|blocks| + 1` distinct
blocks, so `|blocks| + 2` iterations exhaust it. -/

structure BfsState where
  queue : List Nat
  checked : List Nat
  recursesFlag : Bool
  exitFlag : Bool
deriving Repr, DecidableEq

/-- The body of the `for (auto succ : successors(processing))` loop. -/
def bfsSuccStep (blocks : List Nat) (cond : Nat) (st : BfsState) (succ : Nat) :
    BfsState :=
  let r := if succ = cond then true else st.recursesFlag
  let e := if succ ∈ blocks then st.exitFlag else true
  if succ ∉ st.checked ∧ succ ∈ blocks then
    ⟨st.queue ++ [succ], st.checked ++ [succ], r, e⟩
  else ⟨st.queue, st.checked, r, e⟩

/-- The `while (!toProcess.empty())` loop, with explicit fuel. -/
def bfsLoop (cfg : Nat → BB) (blocks : List Nat) (cond : Nat) :
    Nat → BfsState → Bool × Bool
  | 0, st => (st.recursesFlag, st.exitFlag)
  | fuel + 1, st =>
    match st.queue with
    | [] => (st.recursesFlag, st.exitFlag)
    | p :: rest =>
      bfsLoop cfg blocks cond fuel
        ((cfg p).succs.foldl (bfsSuccStep blocks cond)
          ⟨rest, st.checked,
           st.recursesFlag,
           if (cfg p).succs.length = 0 then true else st.exitFlag⟩)

/-- The `(recurses, exit)` flags computed for one successor `suc` of the
candidate `cond`. -/
def classifySucc (cfg : Nat → BB) (blocks : List Nat) (cond suc : Nat) :
    Bool × Bool :=
  bfsLoop cfg blocks cond (blocks.length + 2) ⟨[suc], [suc, cond], false, false⟩

/-- Per-candidate accumulation over its successors: flags plus the
`recursePaths` / `exitPaths` sets. -/
structure CondState where
  exRecurses : Bool
  exExit : Bool
  recursePaths : List Nat
  exitPaths : List Nat
deriving Repr, DecidableEq

/-- The per-successor branch of the classification: a successor whose BFS
sets both flags is skipped by `continue`; otherwise a recursing successor
is added to `recursePaths` and an exiting one to `exitPaths`. -/
def condSuccStep (cfg : Nat → BB) (blocks : List Nat) (cond : Nat)
    (st : CondState) (suc : Nat) : CondState :=
  let re := classifySucc cfg blocks cond suc
  if re.1 ∧ re.2 then st
  else
    let st1 :=
      if re.1 then ⟨true, st.exExit, st.recursePaths ++ [suc], st.exitPaths⟩ else st
    if re.2 then ⟨st1.exRecurses, true, st1.recursePaths, st1.exitPaths ++ [suc]⟩
    else st1

/-- Classification result for one candidate block. -/
def classifyCond (cfg : Nat → BB) (blocks : List Nat) (cond : Nat) : CondState :=
  (cfg cond).succs.foldl (condSuccStep cfg blocks cond) ⟨false, false, [], []⟩

/-- The blocks of the region with more than one successor. -/
def conditionCandidates (cfg : Nat → BB) (blocks : List Nat) : List Nat :=
  blocks.filter (fun b => 1 < (cfg b).succs.length)

/-- The `validConditions` set: candidates for which both `exExit` and
`exRecurses` were observed. -/
def validConditions (cfg : Nat → BB) (blocks : List Nat) : List Nat :=
  (conditionCandidates cfg blocks).filter
    (fun c =>
      (classifyCond cfg blocks c).exExit ∧ (classifyCond cfg blocks c).exRecurses)

/-! The body walk of `GetConditional` (lines 528-616).  Seeds are the
`recursePaths` of each valid conditional; `visited` starts as the seeds plus
all valid conditionals.  A popped block is inserted into `Body` only when it
belongs to the region; its successors are enqueued whenever they are not a
valid conditional and not yet visited — with no membership test against the
region. -/

structure WalkState where
  queue : List Nat
  visited : List Nat
  bodyAcc : List Nat
deriving Repr, DecidableEq

/-- The body of the successor loop of the body walk. -/
def walkPush (valids visited : List Nat) (q : List Nat) (suc : Nat) : List Nat :=
  if suc ∉ valids ∧ suc ∉ visited then q ++ [suc] else q

/-- The `while (!processing.empty())` loop of the body walk. -/
def bodyWalkLoop (cfg : Nat → BB) (blocks valids : List Nat) :
    Nat → WalkState → WalkState
  | 0, st => st
  | fuel + 1, st =>
    match st.queue with
    | [] => st
    | a :: rest =>
      bodyWalkLoop cfg blocks valids fuel
        ⟨(cfg a).succs.foldl (walkPush valids (setInsert st.visited a)) rest,
         setInsert st.visited a,
         if a ∉ st.bodyAcc ∧ a ∈ blocks then st.bodyAcc ++ [a] else st.bodyAcc⟩

/-- The body walk run for one valid conditional `c`, extending the Body set
accumulated so far. -/
def bodyForCond (cfg : Nat → BB) (blocks valids : List Nat) (fuel : Nat)
    (body0 : List Nat) (c : Nat) : List Nat :=
  (bodyWalkLoop cfg blocks valids fuel
    ⟨(classifyCond cfg blocks c).recursePaths,
     (classifyCond cfg blocks c).recursePaths ++ valids,
     body0⟩).bodyAcc

/-- Fuel that exhausts the walk on the concrete regions considered here. -/
def condWalkFuel (blocks : List Nat) : Nat :=
  (blocks.length + 2) * (blocks.length + 2)

/-- Result of `GetConditional`: the `Conditional` set, the `Body` set, and
`Termination` (every region block not in `Body`, per lines 609-615). -/
structure CondResult where
  conditional : List Nat
  body : List Nat
  termination : List Nat
deriving Repr, DecidableEq

/-- `Kernel::GetConditional` over the region `blocks`. -/
def GetConditional (cfg : Nat → BB) (blocks : List Nat) : CondResult :=
  ⟨validConditions cfg blocks,
   (validConditions cfg blocks).foldl
     (bodyForCond cfg blocks (validConditions cfg blocks) (condWalkFuel blocks)) [],
   blocks.filter
     (fun b =>
       b ∉ (validConditions cfg blocks).foldl
         (bodyForCond cfg blocks (validConditions cfg blocks) (condWalkFuel blocks)) [])⟩

/-- Reachability from `src` to `tgt` along paths that stay inside the region
`blocks` (used to state what confinement of the body walk would mean). -/
def reachInS (cfg : Nat → BB) (blocks : List Nat) : Nat → Nat → Nat → Bool
  | 0, _, _ => false
  | fuel + 1, src, tgt =>
    if src ∈ blocks then
      if src = tgt then true
      else (cfg src).succs.any (fun nxt => reachInS cfg blocks fuel nxt tgt)
    else false

/-- Concrete region for claim C3: candidate 0 has a pure-recursing successor
1, a pure-exiting successor 2, and an ambiguous successor 3 (which reaches
both 0 and the outside block 9). -/
def cfgC3 : Nat → BB := fun n =>
  match n with
  | 0 => ⟨[1, 2, 3], false, []⟩
  | 1 => ⟨[0], false, []⟩
  | 2 => ⟨[9], false, []⟩
  | 3 => ⟨[0, 9], false, []⟩
  | _ => ⟨[], false, []⟩

/-- Concrete region for claim C6: the region is `{0, 1, 2}`; the valid
conditional 0 has the outside block 5 as its pure-recursing successor
(5 branches back to 0 and into the region block 1), and the region block 2
as its pure-exiting successor. -/
def cfgC6 : Nat → BB := fun n =>
  match n with
  | 0 => ⟨[5, 2], false, []⟩
  | 1 => ⟨[0], false, []⟩
  | 2 => ⟨[9], false, []⟩
  | 5 => ⟨[0, 1], false, []⟩
  | _ => ⟨[], false, []⟩

/-! ### `Kernel::BuildKernel`, nested-kernel entrance case (Kernel.cpp lines 697-711)

After the intermediate call-and-switch block has been built, the source runs
`VMap[block] = intermediateBlock` and then, for the partition holding
`block`, executes `insert(intermediateBlock)` immediately followed by
`erase(intermediateBlock)` on that same partition set; a block in neither
partition raises the `Tik Error: Block not assigned to Body or Terminus`
exception. -/

structure PlaceResult where
  vmapBlock : Nat
  vmapImage : Nat
  body : List Nat
  termination : List Nat
deriving Repr, DecidableEq

/-- The partition bookkeeping the source performs for the intermediate block
of a nested-kernel entrance `block`. -/
def placeIntermediate (body termination : List Nat) (block intermediate : Nat) :
    Except String PlaceResult :=
  if block ∈ body then
    Except.ok ⟨block, intermediate,
      setErase (setInsert body intermediate) intermediate, termination⟩
  else if block ∈ termination then
    Except.ok ⟨block, intermediate, body,
      setErase (setInsert termination intermediate) intermediate⟩
  else Except.error "Tik Error: Block not assigned to Body or Terminus"

/-! ### `Kernel::InlineFunctions`, entrance-block construction (Kernel.cpp lines 1553-1600)

A call site is a pair of its parent block and its actual-argument operands
(values abstracted as identifiers).  `buildEntrance` is run for the call
instruction `ci` that triggers the inlining of its callee; `callUses` are
all call sites of that callee found in the module (the source's `callUses`
vector, whose parent blocks form `funcUses`).  The `branchPhi` receives one
incoming `(phiIndex, pre)` per predecessor; each argument phi receives, per
predecessor `pre`, the incoming value `ci->getOperand(argIndex)` — taken
from `ci`, not from the call site whose parent is `pre`. -/

structure MCall where
  parentBlock : Nat
  argOperands : List Nat
deriving Repr, DecidableEq

structure InlineEntrance where
  branchPhi : List (Nat × Nat)
  argPhis : List (List (Nat × Nat))
deriving Repr, DecidableEq

/-- The phi construction of the inliner's entrance block.  `numArgs` is the
number of formal arguments of the callee; each argument phi lists its
incoming `(value, predecessor block)` pairs in order. -/
def buildEntrance (ci : MCall) (callUses : List MCall) (numArgs : Nat) :
    InlineEntrance :=
  ⟨((callUses.map (fun c => c.parentBlock)).foldl
      (fun (acc : List (Nat × Nat) × Nat) pre => (acc.1 ++ [(acc.2, pre)], acc.2 + 1))
      ([], 0)).1,
   (List.range numArgs).map (fun argIndex =>
     (callUses.map (fun c => c.parentBlock)).map
       (fun pre => (ci.argOperands.getD argIndex 0, pre)))⟩

/-! ### `Kernel::Kernel` constructor control flow (Kernel.cpp lines 33-187)

Name normalisation (lines 39-51), the reserved-name check and throw
(lines 52-56, before the `try` block begins at line 75), and the guarded
phase sequence whose `TikException`s are caught at line 172, logged, and
answered with `Cleanup()`.  The phase sequence is abstracted as an
`Except String Unit` value; `escapedMsg` records an exception that leaves
the constructor uncaught. -/

def normalizeName (name : String) (uid : Nat) : String :=
  match name.data with
  | [] => "Kernel_" ++ toString uid
  | c :: _ => if '0' ≤ c ∧ c ≤ '9' then "K" ++ name else name

def dupNameMsg : String := "Kernel Error: Kernel names must be unique!"

structure CtorResult where
  escapedMsg : Option String
  valid : Bool
  cleanupRan : Bool
  reserved : List String
deriving Repr, DecidableEq

/-- The top-level constructor: duplicate names throw before the `try` block
(so the exception escapes and `Cleanup` never runs); otherwise the name is
reserved and the phase sequence runs under the fault guard, with `Valid`
set only on success. -/
def kernelCtor (reservedNames : List String) (name : String) (uid : Nat)
    (phases : Except String Unit) : CtorResult :=
  if normalizeName name uid ∈ reservedNames then
    ⟨some dupNameMsg, false, false, reservedNames⟩
  else
    match phases with
    | Except.ok _ => ⟨none, true, false, reservedNames ++ [normalizeName name uid]⟩
    | Except.error _ => ⟨none, false, true, reservedNames ++ [normalizeName name uid]⟩

/-! ### Kernel function signature construction (Kernel.cpp lines 102-116)

`inputArgs` starts with i8 and appends the type of every external value;
the function type returns i8; argument `1 + i` is bound to
`ExternalValues[i]` through `VMap` and `ArgumentMap`. -/

inductive LType where
  | i8 : LType
  | i64 : LType
  | ptrTo : LType → LType
  | scalar : Nat → LType
deriving Repr, DecidableEq

/-- An external value: an identifier together with its IR type. -/
structure TVal where
  ident : Nat
  ty : LType
deriving Repr, DecidableEq

/-- The `inputArgs` vector: i8 followed by the types of the external
values, in order. -/
def buildInputArgs (externalValues : List TVal) : List LType :=
  externalValues.foldl (fun acc v => acc ++ [v.ty]) [LType.i8]

structure FuncSig where
  retTy : LType
  params : List LType
deriving Repr, DecidableEq

/-- The `FunctionType` of the synthesized kernel function. -/
def buildKernelFuncType (externalValues : List TVal) : FuncSig :=
  ⟨LType.i8, buildInputArgs externalValues⟩

/-- The binding loop `VMap[ExternalValues[i]] = arg(1+i);
ArgumentMap[arg(1+i)] = ExternalValues[i]`, with arguments identified by
their position.  Returns the `VMap` entries (value, argument position) and
the `ArgumentMap` entries (argument position, value). -/
def bindArgsFrom : Nat → List TVal → List (TVal × Nat) × List (Nat × TVal)
  | _, [] => ([], [])
  | i, v :: vs =>
    ((v, 1 + i) :: (bindArgsFrom (i + 1) vs).1,
     (1 + i, v) :: (bindArgsFrom (i + 1) vs).2)

def bindKernelArgs (externalValues : List TVal) :
    List (TVal × Nat) × List (Nat × TVal) :=
  bindArgsFrom 0 externalValues

/-- Lookup of an argument position in the `ArgumentMap`. -/
def lookupArgMap (l : List (Nat × TVal)) (k : Nat) : Option TVal :=
  (l.find? (fun p => p.1 = k)).map (fun p => p.2)

/-! ### `Kernel::GetMemoryFunctions` (Kernel.cpp lines 844-1033)

Instructions of the kernel function are scanned for loads and stores; the
pointer operands are collected into the `loadValues` / `storeValues` sets.
The selector body of `MemoryRead` (and identically of `MemoryWrite`) is a
chain built left to right: the pointer at index 0 contributes its converted
value (`ptrtoint(load global)`) as the initial `priorValue` with no
comparison; every later index `i` wraps the chain in
`select(arg == i, converted_i, priorValue)`.  An empty chain produces
`ret (i64 0)` plus a logged warning. -/

inductive KInstr where
  | load : Nat → KInstr
  | store : Nat → Nat → KInstr
  | other : Nat → KInstr
deriving Repr, DecidableEq

def isLoadInstr : KInstr → Bool
  | KInstr.load _ => true
  | _ => false

def isStoreInstr : KInstr → Bool
  | KInstr.store _ _ => true
  | _ => false

/-- Collection step for `loadValues`: the pointer operand of a load is
inserted into the set. -/
def loadStep (acc : List Nat) (i : KInstr) : List Nat :=
  match i with
  | KInstr.load p => setInsert acc p
  | _ => acc

/-- Collection step for `storeValues`. -/
def storeStep (acc : List Nat) (i : KInstr) : List Nat :=
  match i with
  | KInstr.store _ p => setInsert acc p
  | _ => acc

def collectLoadValues (instrs : List KInstr) : List Nat :=
  instrs.foldl loadStep []

def collectStoreValues (instrs : List KInstr) : List Nat :=
  instrs.foldl storeStep []

/-- Syntax of the selector expression: `convItem i` is the converted value
`ptrtoint(load)` of the global at index `i`; `selectIdx i t e` is
`select(icmp eq arg i, t, e)`. -/
inductive MExpr where
  | convItem : Nat → MExpr
  | selectIdx : Nat → MExpr → MExpr → MExpr
  | constInt : Int → MExpr
deriving Repr, DecidableEq

/-- One iteration of the selector loop: when `priorValue` is null the
converted value becomes the prior; otherwise the chain grows by one
`select`.  The counter is the source's `i`, incremented per pointer. -/
def chainStep (acc : Option MExpr × Nat) (_v : Nat) : Option MExpr × Nat :=
  match acc.1 with
  | none => (some (MExpr.convItem acc.2), acc.2 + 1)
  | some prior => (some (MExpr.selectIdx acc.2 (MExpr.convItem acc.2) prior), acc.2 + 1)

/-- The `priorValue` left by the loop over the collected pointers. -/
def buildChain (vals : List Nat) : Option MExpr :=
  (vals.foldl chainStep (none, 0)).1

/-- A synthesized memory helper: the returned expression and whether the
empty-kernel warning was logged. -/
structure MemFunc where
  retVal : MExpr
  warned : Bool
deriving Repr, DecidableEq

/-- The `MemoryRead` selector for a kernel function holding `instrs`
(lines 885-929): a null `priorValue` yields `ret 0` with a warning. -/
def buildMemoryRead (instrs : List KInstr) : MemFunc :=
  match buildChain (collectLoadValues instrs) with
  | none => ⟨MExpr.constInt 0, true⟩
  | some e => ⟨e, false⟩

/-- The `MemoryWrite` selector (lines 932-976), built by the same loop over
the collected store pointers. -/
def buildMemoryWrite (instrs : List KInstr) : MemFunc :=
  match buildChain (collectStoreValues instrs) with
  | none => ⟨MExpr.constInt 0, true⟩
  | some e => ⟨e, false⟩

/-- Evaluation of the selector expression for a concrete i64 argument,
given the runtime converted value `conv i` of each index. -/
def evalMExpr (conv : Nat → Int) (arg : Int) : MExpr → Int
  | MExpr.convItem i => conv i
  | MExpr.constInt n => n
  | MExpr.selectIdx i t e =>
    if arg = (i : Int) then evalMExpr conv arg t else evalMExpr conv arg e

/-- The indices the chain compares the argument against. -/
def selectIdxList : MExpr → List Nat
  | MExpr.convItem _ => []
  | MExpr.constInt _ => []
  | MExpr.selectIdx i t e => i :: (selectIdxList t ++ selectIdxList e)

/-! ### `KernelHasher.cpp` (`main`, lines 43-110)

A block of the consumed module carries its `BlockID` metadata value and its
canonicalised instruction text (abstracted as a number).  The hasher builds
`blockMap[UID++] = b` by iterating functions then blocks, so resolution of
an integer id is positional in the flattened module.  Per kernel, the id
list is sorted ascending, each id is resolved through `blockMap`, and the
resulting string list is "sorted" over the empty range
`[begin, begin)` before concatenation. -/

structure HBlock where
  blockId : Int
  content : Nat
deriving Repr, DecidableEq

/-- The `blockMap` array: functions flattened in iteration order, the key of
a block being its position. -/
def buildBlockMap (functions : List (List HBlock)) : List HBlock :=
  functions.flatten

/-- Resolution of an integer id through `blockMap`. -/
def blockMapAt (functions : List (List HBlock)) (n : Nat) : Option HBlock :=
  listAt (buildBlockMap functions) n

/-- Resolution of an id through the `BlockID` metadata instead (what the
main tool does); the hasher never performs this lookup. -/
def blockIdAt (functions : List (List HBlock)) (id : Int) : Option HBlock :=
  (buildBlockMap functions).find? (fun b => b.blockId = id)

/-- Canonicalised text of a resolved block. -/
def optContent (b : Option HBlock) : Option Nat :=
  b.map (fun x => x.content)

/-- Comparison used by the string sort. -/
def contentLe (x y : Option Nat) : Prop :=
  x.getD 0 ≤ y.getD 0

instance : DecidableRel contentLe :=
  fun x y => inferInstanceAs (Decidable (x.getD 0 ≤ y.getD 0))

/-- `std::sort(first + a, first + b)` on the block-string list: the elements
of the half-open range `[a, b)` are sorted in place. -/
def sortStrRange (l : List (Option Nat)) (a b : Nat) : List (Option Nat) :=
  l.take a ++ ((l.drop a).take (b - a)).insertionSort contentLe ++ (l.drop a).drop (b - a)

/-- The per-kernel block-string sequence: ids sorted ascending, resolved
positionally, then the empty-range sort `sort(begin, begin)` of line 101. -/
def kernelBlockSeq (functions : List (List HBlock)) (blockIds : List Nat) :
    List (Option Nat) :=
  sortStrRange
    ((blockIds.insertionSort (fun a b => a ≤ b)).map
      (fun b => optContent (blockMapAt functions b)))
    0 0

/-! ## Theorems -/

/-- `processExitSucc` never removes anything from `covered`. -/
theorem processExitSucc_covered_mono (blocks : List Nat) (b : Nat) (st : ExitsState)
    (t s : Nat) (hmem : s ∈ st.covered) : s ∈ (processExitSucc blocks b st t).covered := by
  unfold processExitSucc
  split
  · exact hmem
  · split
    · exact hmem
    · exact List.mem_append_left _ hmem

/-- `processExitSucc` never removes anything from `exitTarget`. -/
theorem processExitSucc_target_mono (blocks : List Nat) (b : Nat) (st : ExitsState)
    (t : Nat) (pr : Nat × Nat) (hmem : pr ∈ st.exitTarget) :
    pr ∈ (processExitSucc blocks b st t).exitTarget := by
  unfold processExitSucc
  split
  · exact hmem
  · split
    · exact hmem
    · exact List.mem_append_left _ hmem

/-- After processing an outside target `t`, `t` is covered. -/
theorem processExitSucc_self_covered (blocks : List Nat) (b : Nat) (st : ExitsState)
    (t : Nat) (hnb : t ∉ blocks) : t ∈ (processExitSucc blocks b st t).covered := by
  unfold processExitSucc
  rw [if_neg hnb]
  by_cases hc : t ∈ st.covered
  · rw [if_pos hc]; exact hc
  · rw [if_neg hc]
    exact List.mem_append_right _ (List.mem_singleton.mpr rfl)

/-- Folding `processExitSucc` over a target list preserves coverage. -/
theorem foldl_processExit_covered_mono (blocks : List Nat) (b s : Nat) :
    ∀ (l : List Nat) (st : ExitsState), s ∈ st.covered →
      s ∈ (l.foldl (processExitSucc blocks b) st).covered := by
  intro l
  induction l with
  | nil => intro st h; exact h
  | cons t ts ih =>
    intro st h
    exact ih _ (processExitSucc_covered_mono blocks b st t s h)

/-- Folding `processExitSucc` preserves recorded exit targets. -/
theorem foldl_processExit_target_mono (blocks : List Nat) (b : Nat) (pr : Nat × Nat) :
    ∀ (l : List Nat) (st : ExitsState), pr ∈ st.exitTarget →
      pr ∈ (l.foldl (processExitSucc blocks b) st).exitTarget := by
  intro l
  induction l with
  | nil => intro st h; exact h
  | cons t ts ih =>
    intro st h
    exact ih _ (processExitSucc_target_mono blocks b st t pr h)

/-- Any outside target occurring in the processed list ends up covered. -/
theorem foldl_processExit_mem_covered (blocks : List Nat) (b s : Nat)
    (hnb : s ∉ blocks) :
    ∀ (l : List Nat) (st : ExitsState), s ∈ l →
      s ∈ (l.foldl (processExitSucc blocks b) st).covered := by
  intro l
  induction l with
  | nil => intro st h; cases h
  | cons t ts ih =>
    intro st h
    rcases List.mem_cons.mp h with h1 | h2
    · subst h1
      exact foldl_processExit_covered_mono blocks b s ts _
        (processExitSucc_self_covered blocks b st s hnb)
    · exact ih _ h2

/-- `getExitsStep` preserves coverage. -/
theorem getExitsStep_covered_mono (cfg : Nat → BB) (blocks : List Nat) (b s : Nat)
    (st : ExitsState) (h : s ∈ st.covered) :
    s ∈ (getExitsStep cfg blocks st b).covered := by
  unfold getExitsStep
  split
  · exact foldl_processExit_covered_mono blocks b s _ _
      (foldl_processExit_covered_mono blocks b s _ _ h)
  · exact foldl_processExit_covered_mono blocks b s _ _ h

/-- `getExitsStep` preserves recorded exit targets. -/
theorem getExitsStep_target_mono (cfg : Nat → BB) (blocks : List Nat) (b : Nat)
    (pr : Nat × Nat) (st : ExitsState) (h : pr ∈ st.exitTarget) :
    pr ∈ (getExitsStep cfg blocks st b).exitTarget := by
  unfold getExitsStep
  split
  · exact foldl_processExit_target_mono blocks b pr _ _
      (foldl_processExit_target_mono blocks b pr _ _ h)
  · exact foldl_processExit_target_mono blocks b pr _ _ h

/-- Processing block `b` covers each of its outside successors. -/
theorem getExitsStep_succ_covered (cfg : Nat → BB) (blocks : List Nat)
    (st : ExitsState) (b s : Nat) (hs : s ∈ (cfg b).succs) (hnb : s ∉ blocks) :
    s ∈ (getExitsStep cfg blocks st b).covered := by
  unfold getExitsStep
  split
  · exact foldl_processExit_covered_mono blocks b s _ _
      (foldl_processExit_mem_covered blocks b s hnb _ st hs)
  · exact foldl_processExit_mem_covered blocks b s hnb _ st hs

/-- The outer fold of `GetExits` preserves coverage. -/
theorem foldl_getExitsStep_covered_mono (cfg : Nat → BB) (blocks : List Nat) (s : Nat) :
    ∀ (l : List Nat) (st : ExitsState), s ∈ st.covered →
      s ∈ (l.foldl (getExitsStep cfg blocks) st).covered := by
  intro l
  induction l with
  | nil => intro st h; exact h
  | cons b bs ih =>
    intro st h
    exact ih _ (getExitsStep_covered_mono cfg blocks b s st h)

/-- Every outside successor of a region block is covered by `GetExits`. -/
theorem getExits_covered (cfg : Nat → BB) (blocks : List Nat) (b s : Nat)
    (hb : b ∈ blocks) (hs : s ∈ (cfg b).succs) (hnb : s ∉ blocks) :
    s ∈ (GetExits cfg blocks).covered := by
  unfold GetExits
  have H : ∀ (l : List Nat) (st : ExitsState), b ∈ l →
      s ∈ (l.foldl (getExitsStep cfg blocks) st).covered := by
    intro l
    induction l with
    | nil => intro st h; cases h
    | cons x xs ih =>
      intro st h
      rcases List.mem_cons.mp h with h1 | h2
      · subst h1
        exact foldl_getExitsStep_covered_mono cfg blocks s xs _
          (getExitsStep_succ_covered cfg blocks st b s hs hnb)
      · exact ih _ h2
  exact H blocks _ hb

/-- `processExitSucc` preserves the covered-targets invariant. -/
theorem processExitSucc_inv (blocks : List Nat) (b : Nat) (st : ExitsState) (t : Nat)
    (h : exitsCoveredInv st) : exitsCoveredInv (processExitSucc blocks b st t) := by
  unfold processExitSucc
  split
  · exact h
  · split
    · exact h
    · intro x hx
      rcases List.mem_append.mp hx with h1 | h2
      · rcases h x h1 with ⟨id, hid⟩
        exact ⟨id, List.mem_append_left _ hid⟩
      · rw [List.mem_singleton] at h2
        subst h2
        exact ⟨st.exitId, List.mem_append_right _ (List.mem_singleton.mpr rfl)⟩

/-- Folding `processExitSucc` preserves the covered-targets invariant. -/
theorem foldl_processExit_inv (blocks : List Nat) (b : Nat) :
    ∀ (l : List Nat) (st : ExitsState), exitsCoveredInv st →
      exitsCoveredInv (l.foldl (processExitSucc blocks b) st) := by
  intro l
  induction l with
  | nil => intro st h; exact h
  | cons t ts ih =>
    intro st h
    exact ih _ (processExitSucc_inv blocks b st t h)

/-- `getExitsStep` preserves the covered-targets invariant. -/
theorem getExitsStep_inv (cfg : Nat → BB) (blocks : List Nat) (b : Nat)
    (st : ExitsState) (h : exitsCoveredInv st) :
    exitsCoveredInv (getExitsStep cfg blocks st b) := by
  unfold getExitsStep
  split
  · exact foldl_processExit_inv blocks b _ _ (foldl_processExit_inv blocks b _ _ h)
  · exact foldl_processExit_inv blocks b _ _ h

/-- `GetExits` satisfies the covered-targets invariant. -/
theorem getExits_inv (cfg : Nat → BB) (blocks : List Nat) :
    exitsCoveredInv (GetExits cfg blocks) := by
  unfold GetExits
  have H : ∀ (l : List Nat) (st : ExitsState), exitsCoveredInv st →
      exitsCoveredInv (l.foldl (getExitsStep cfg blocks) st) := by
    intro l
    induction l with
    | nil => intro st h; exact h
    | cons x xs ih =>
      intro st h
      exact ih _ (getExitsStep_inv cfg blocks x st h)
  exact H blocks _ (fun x hx => absurd hx (List.not_mem_nil x))

/-- Claim C2, counterexample: in the region `{1, 2}` of `cfgC2` both blocks
exit to the outside block 5; after `GetExits` the second block (2) has an
outside successor yet no `ExitMap` entry, so `ExitMap` is not total over
the exiting blocks of the region. -/
theorem c2_exitmap_not_total_counterexample :
    2 ∈ ([1, 2] : List Nat) ∧ 5 ∈ (cfgC2 2).succs ∧ 5 ∉ ([1, 2] : List Nat) ∧
    lookupA (GetExits cfgC2 [1, 2]).exitMap 2 = none := by decide

/-- Claim C2, amended: `ExitMap` is not total over exiting blocks (a block
whose every outside successor was already recorded by an earlier block gets
no entry); what `GetExits` does guarantee is that every outside successor
of a region block is recorded as the target of some exit id in
`ExitTarget`. -/
theorem c2_exit_targets_cover_outside_successors (cfg : Nat → BB)
    (blocks : List Nat) (b s : Nat) (hb : b ∈ blocks) (hs : s ∈ (cfg b).succs)
    (hout : s ∉ blocks) : ∃ id, (id, s) ∈ (GetExits cfg blocks).exitTarget :=
  getExits_inv cfg blocks s (getExits_covered cfg blocks b s hb hs hout)

/-- Witness for the amended claim C2 at the concrete region of `cfgC2`. -/
theorem c2_exit_targets_cover_outside_successors_witness :
    (1 ∈ ([1, 2] : List Nat) ∧ 5 ∈ (cfgC2 1).succs ∧ 5 ∉ ([1, 2] : List Nat)) ∧
    ∃ id, (id, 5) ∈ (GetExits cfgC2 [1, 2]).exitTarget :=
  ⟨⟨by decide, by decide, by decide⟩,
   c2_exit_targets_cover_outside_successors cfgC2 [1, 2] 1 5 (by decide) (by decide)
     (by decide)⟩

/-- Claim C1, the code evaluated at the failing input: the callee has one
formal argument and two call sites, in blocks 10 and 20, passing the
distinct actuals 1 and 2.  The argument phi built while inlining the call
of block 10 carries the incoming value 1 for BOTH predecessor blocks — the
incoming paired with block 20 is 1, not 2, because the loop reads
`ci->getOperand(argIndex)` from the triggering call instead of the call
site belonging to the predecessor. -/
theorem c1_inline_arg_phi_at_bug_input :
    buildEntrance ⟨10, [1]⟩ [⟨10, [1]⟩, ⟨20, [2]⟩] 1 =
      ⟨[(0, 10), (1, 20)], [[(1, 10), (1, 20)]]⟩ ∧
    ∀ phi ∈ (buildEntrance ⟨10, [1]⟩ [⟨10, [1]⟩, ⟨20, [2]⟩] 1).argPhis,
      (2, 20) ∉ phi := by decide

/-- Claim C3, the code evaluated at the failing input: in `cfgC3` the
candidate block 0 has the ambiguous successor 3 (its BFS sets both the
recurses flag and the exit flag), yet 0 is still classified as a valid
conditional, because the `continue` only skips that successor instead of
disqualifying the candidate. -/
theorem c3_ambiguous_successor_not_disqualifying :
    3 ∈ (cfgC3 0).succs ∧
    classifySucc cfgC3 [0, 1, 2, 3] 0 3 = (true, true) ∧
    validConditions cfgC3 [0, 1, 2, 3] = [0] ∧
    0 ∈ (GetConditional cfgC3 [0, 1, 2, 3]).conditional := by decide

/-- Claim C4, the code evaluated at the failing input: block 7 sits in Body
and its intermediate block is 42.  The source inserts the intermediate
block into Body and immediately erases it again, so afterwards Body is
still `{7}`: the intermediate block is a member of neither partition and
the original block was never removed. -/
theorem c4_intermediate_block_partition_at_bug_input :
    placeIntermediate [7] [] 7 42 = Except.ok ⟨7, 42, [7], []⟩ ∧
    42 ∉ ([7] : List Nat) :=
  ⟨rfl, by decide⟩

/-- Claim C5, counterexample: constructing a kernel whose normalised name is
already reserved makes the duplicate-name exception escape the constructor
(it is thrown before the `try` block), and `Cleanup` does not run — the
failure is not caught inside the top-level constructor. -/
theorem c5_duplicate_name_escapes_counterexample :
    (kernelCtor ["myKern"] "myKern" 0 (Except.ok ())).escapedMsg = some dupNameMsg ∧
    (kernelCtor ["myKern"] "myKern" 0 (Except.ok ())).cleanupRan = false ∧
    (kernelCtor ["myKern"] "myKern" 0 (Except.ok ())).valid = false := by decide

/-- Claim C5, amended: a duplicate name raises the failure before the
guarded region, so the exception escapes the constructor and `Cleanup`
never runs (with `Valid` never set); every failure raised inside the phase
sequence is caught in the constructor, `Cleanup` runs, and `Valid` stays
false, while a successful phase sequence sets `Valid`. -/
theorem c5_ctor_error_handling_amended (reserved : List String) (name : String)
    (uid : Nat) (phases : Except String Unit) :
    (normalizeName name uid ∈ reserved →
      kernelCtor reserved name uid phases = ⟨some dupNameMsg, false, false, reserved⟩) ∧
    (normalizeName name uid ∉ reserved → ∀ e : String, phases = Except.error e →
      kernelCtor reserved name uid phases =
        ⟨none, false, true, reserved ++ [normalizeName name uid]⟩) ∧
    (normalizeName name uid ∉ reserved → phases = Except.ok () →
      kernelCtor reserved name uid phases =
        ⟨none, true, false, reserved ++ [normalizeName name uid]⟩) := by
  refine ⟨?_, ?_, ?_⟩
  · intro h
    unfold kernelCtor
    rw [if_pos h]
  · intro h e he
    subst he
    unfold kernelCtor
    rw [if_neg h]
  · intro h he
    subst he
    unfold kernelCtor
    rw [if_neg h]

/-- Witness for the amended claim C5: a concrete duplicate name escaping,
and a concrete phase failure being caught with `Cleanup` run. -/
theorem c5_ctor_error_handling_amended_witness :
    (normalizeName "myKern" 0 ∈ ["myKern"] ∧
      kernelCtor ["myKern"] "myKern" 0 (Except.ok ()) =
        ⟨some dupNameMsg, false, false, ["myKern"]⟩) ∧
    (normalizeName "other" 0 ∉ ([] : List String) ∧
      kernelCtor [] "other" 0 (Except.error "phase failed") =
        ⟨none, false, true, [normalizeName "other" 0]⟩) :=
  ⟨⟨by decide,
    (c5_ctor_error_handling_amended ["myKern"] "myKern" 0 (Except.ok ())).1 (by decide)⟩,
   ⟨by decide, by
    have h := (c5_ctor_error_handling_amended [] "other" 0
      (Except.error "phase failed")).2.1 (by decide) "phase failed" rfl
    simpa using h⟩⟩

/-- Anything in the body accumulated by the walk loop was either already
accumulated or belongs to the region: the insertion into Body is guarded by
region membership. -/
theorem bodyWalkLoop_body_sub (cfg : Nat → BB) (blocks valids : List Nat) :
    ∀ (fuel : Nat) (st : WalkState) (x : Nat),
      x ∈ (bodyWalkLoop cfg blocks valids fuel st).bodyAcc →
      x ∈ st.bodyAcc ∨ x ∈ blocks := by
  intro fuel
  induction fuel with
  | zero => intro st x h; exact Or.inl h
  | succ f ih =>
    intro st x h
    rcases hq : st.queue with _ | ⟨a, rest⟩
    · rw [bodyWalkLoop, hq] at h
      exact Or.inl h
    · rw [bodyWalkLoop, hq] at h
      rcases ih _ x h with h1 | h2
      · by_cases hcond : a ∉ st.bodyAcc ∧ a ∈ blocks
        · rw [if_pos hcond] at h1
          rcases List.mem_append.mp h1 with h3 | h4
          · exact Or.inl h3
          · rw [List.mem_singleton] at h4
            subst h4
            exact Or.inr hcond.2
        · rw [if_neg hcond] at h1
          exact Or.inl h1
      · exact Or.inr h2

/-- The walk for one conditional only adds region blocks to Body. -/
theorem bodyForCond_sub (cfg : Nat → BB) (blocks valids : List Nat) (fuel : Nat)
    (body0 : List Nat) (c x : Nat)
    (h : x ∈ bodyForCond cfg blocks valids fuel body0 c) :
    x ∈ body0 ∨ x ∈ blocks := by
  unfold bodyForCond at h
  exact bodyWalkLoop_body_sub cfg blocks valids fuel _ x h

/-- Folding the walk over the valid conditionals only adds region blocks. -/
theorem foldl_bodyForCond_sub (cfg : Nat → BB) (blocks valids : List Nat)
    (fuel : Nat) :
    ∀ (cs : List Nat) (body0 : List Nat) (x : Nat),
      x ∈ cs.foldl (bodyForCond cfg blocks valids fuel) body0 →
      x ∈ body0 ∨ x ∈ blocks := by
  intro cs
  induction cs with
  | nil => intro b x h; exact Or.inl h
  | cons c cs2 ih =>
    intro b x h
    rcases ih _ x h with h1 | h2
    · exact bodyForCond_sub cfg blocks valids fuel b c x h1
    · exact Or.inr h2

/-- Claim C6, counterexample: in `cfgC6` with region `{0, 1, 2}` the valid
conditional 0 has the single pure-recursing successor 5, a block outside
the region; the region block 1 is reachable from that seed only through the
outside block 5 (there is no path inside the region from any seed to 1),
yet the walk marks 1 as Body and it is not placed in Termination — the walk
is not confined to the region. -/
theorem c6_body_walk_counterexample :
    1 ∈ (GetConditional cfgC6 [0, 1, 2]).body ∧
    validConditions cfgC6 [0, 1, 2] = [0] ∧
    (classifyCond cfgC6 [0, 1, 2] 0).recursePaths = [5] ∧
    5 ∉ ([0, 1, 2] : List Nat) ∧
    (∀ s ∈ (classifyCond cfgC6 [0, 1, 2] 0).recursePaths,
      reachInS cfgC6 [0, 1, 2] 4 s 1 = false) ∧
    1 ∉ (GetConditional cfgC6 [0, 1, 2]).termination := by decide

/-- Claim C6, amended: the walk's seeds may lie outside the region and its
queue admits any successor that is not a valid conditional, without testing
region membership; the confinement that does hold is that only region
blocks are ever inserted into Body (so `Body ⊆ S`, even though a region
block reachable only through outside blocks can be marked Body). -/
theorem c6_body_subset_region (cfg : Nat → BB) (blocks : List Nat) (x : Nat)
    (hx : x ∈ (GetConditional cfg blocks).body) : x ∈ blocks := by
  unfold GetConditional at hx
  rcases foldl_bodyForCond_sub cfg blocks (validConditions cfg blocks)
    (condWalkFuel blocks) (validConditions cfg blocks) [] x hx with h | h
  · cases h
  · exact h

/-- Witness for the amended claim C6 at the concrete region of `cfgC6`. -/
theorem c6_body_subset_region_witness :
    1 ∈ (GetConditional cfgC6 [0, 1, 2]).body ∧ 1 ∈ ([0, 1, 2] : List Nat) :=
  ⟨by decide, c6_body_subset_region cfgC6 [0, 1, 2] 1 (by decide)⟩

/-- The fold appending the external-value types equals the accumulator
followed by the mapped types. -/
theorem foldl_append_ty (l : List TVal) :
    ∀ acc : List LType,
      l.foldl (fun a v => a ++ [v.ty]) acc = acc ++ l.map (fun v => v.ty) := by
  induction l with
  | nil => intro acc; simp
  | cons v vs ih => intro acc; simp [ih]

/-- The parameter list built by the constructor is i8 followed by the types
of the external values. -/
theorem buildInputArgs_eq (evs : List TVal) :
    buildInputArgs evs = LType.i8 :: evs.map (fun v => v.ty) := by
  unfold buildInputArgs
  simpa using foldl_append_ty evs [LType.i8]

/-- `listAt` commutes with `map`. -/
theorem listAt_map {α β : Type} (f : α → β) :
    ∀ (l : List α) (n : Nat), listAt (l.map f) n = (listAt l n).map f := by
  intro l
  induction l with
  | nil => intro n; rfl
  | cons x xs ih =>
    intro n
    cases n with
    | zero => rfl
    | succ m => exact ih m

/-- The `i`-th external value is bound to argument position `1 + i0 + i` in
the `VMap` built from start index `i0`. -/
theorem bindArgsFrom_mem_vmap :
    ∀ (evs : List TVal) (i0 k : Nat) (v : TVal),
      listAt evs k = some v → (v, 1 + (i0 + k)) ∈ (bindArgsFrom i0 evs).1 := by
  intro evs
  induction evs with
  | nil => intro i0 k v h; cases h
  | cons w ws ih =>
    intro i0 k v h
    cases k with
    | zero =>
      have hw : w = v := by
        have := h
        rw [show listAt (w :: ws) 0 = some w from rfl] at this
        exact Option.some.inj this
      subst hw
      simp [bindArgsFrom]
    | succ m =>
      have hmem := ih (i0 + 1) m v h
      have e : 1 + (i0 + (m + 1)) = 1 + ((i0 + 1) + m) := by omega
      rw [e]
      exact List.mem_cons_of_mem _ hmem

/-- Lookup of argument position `1 + i0 + k` in the `ArgumentMap` built
from start index `i0` returns the `k`-th external value. -/
theorem bindArgsFrom_lookup_argmap :
    ∀ (evs : List TVal) (i0 k : Nat) (v : TVal),
      listAt evs k = some v →
      (bindArgsFrom i0 evs).2.find? (fun p => p.1 = 1 + (i0 + k)) =
        some (1 + (i0 + k), v) := by
  intro evs
  induction evs with
  | nil => intro i0 k v h; cases h
  | cons w ws ih =>
    intro i0 k v h
    cases k with
    | zero =>
      have hw : w = v := by
        have := h
        rw [show listAt (w :: ws) 0 = some w from rfl] at this
        exact Option.some.inj this
      subst hw
      simp [bindArgsFrom, List.find?]
    | succ m =>
      have hne : ¬ (1 + i0 = 1 + (i0 + (m + 1))) := by omega
      have hmem := ih (i0 + 1) m v h
      have e : 1 + (i0 + (m + 1)) = 1 + ((i0 + 1) + m) := by omega
      rw [e]
      show List.find? (fun p => p.1 = 1 + ((i0 + 1) + m))
        ((1 + i0, w) :: (bindArgsFrom (i0 + 1) ws).2) = _
      rw [List.find?_cons]
      have hd : (decide ((1 + i0, w).1 = 1 + ((i0 + 1) + m))) = false := by
        simp only [decide_eq_false_iff_not]
        omega
      rw [hd]
      exact hmem

/-- Claim C7: the synthesized kernel function returns i8; its parameter
list is the i8 entrance selector followed by the types of the external
values in order; and whenever `ExternalValues[i]` exists, parameter `i + 1`
has exactly its type, `VMap` binds the value to argument position `1 + i`,
and `ArgumentMap` binds argument position `1 + i` back to the value. -/
theorem c7_kernel_signature (evs : List TVal) (i : Nat) (v : TVal)
    (h : listAt evs i = some v) :
    (buildKernelFuncType evs).retTy = LType.i8 ∧
    (buildKernelFuncType evs).params = LType.i8 :: evs.map (fun w => w.ty) ∧
    listAt (buildKernelFuncType evs).params (i + 1) = some v.ty ∧
    (v, 1 + i) ∈ (bindKernelArgs evs).1 ∧
    lookupArgMap (bindKernelArgs evs).2 (1 + i) = some v := by
  refine ⟨rfl, buildInputArgs_eq evs, ?_, ?_, ?_⟩
  · show listAt (buildInputArgs evs) (i + 1) = some v.ty
    rw [buildInputArgs_eq evs]
    show listAt (evs.map (fun w => w.ty)) i = some v.ty
    rw [listAt_map, h]
    rfl
  · have := bindArgsFrom_mem_vmap evs 0 i v h
    simpa using this
  · unfold lookupArgMap bindKernelArgs
    have := bindArgsFrom_lookup_argmap evs 0 i v h
    rw [show 1 + (0 + i) = 1 + i by omega] at this
    rw [this]
    rfl

/-- Witness for claim C7 at a concrete external-value list. -/
theorem c7_kernel_signature_witness :
    listAt [TVal.mk 5 LType.i64, TVal.mk 6 (LType.ptrTo LType.i8)] 1 =
      some (TVal.mk 6 (LType.ptrTo LType.i8)) ∧
    ((buildKernelFuncType [TVal.mk 5 LType.i64, TVal.mk 6 (LType.ptrTo LType.i8)]).retTy =
        LType.i8 ∧
      (buildKernelFuncType [TVal.mk 5 LType.i64, TVal.mk 6 (LType.ptrTo LType.i8)]).params =
        LType.i8 ::
          [TVal.mk 5 LType.i64, TVal.mk 6 (LType.ptrTo LType.i8)].map (fun w => w.ty) ∧
      listAt (buildKernelFuncType
          [TVal.mk 5 LType.i64, TVal.mk 6 (LType.ptrTo LType.i8)]).params (1 + 1) =
        some (TVal.mk 6 (LType.ptrTo LType.i8)).ty ∧
      (TVal.mk 6 (LType.ptrTo LType.i8), 1 + 1) ∈
        (bindKernelArgs [TVal.mk 5 LType.i64, TVal.mk 6 (LType.ptrTo LType.i8)]).1 ∧
      lookupArgMap
          (bindKernelArgs [TVal.mk 5 LType.i64, TVal.mk 6 (LType.ptrTo LType.i8)]).2
          (1 + 1) =
        some (TVal.mk 6 (LType.ptrTo LType.i8))) :=
  ⟨rfl, c7_kernel_signature [TVal.mk 5 LType.i64, TVal.mk 6 (LType.ptrTo LType.i8)] 1
    (TVal.mk 6 (LType.ptrTo LType.i8)) rfl⟩

/-- A non-load instruction leaves the load-pointer set unchanged. -/
theorem loadStep_skip (acc : List Nat) (i : KInstr) (h : isLoadInstr i = false) :
    loadStep acc i = acc := by
  cases i with
  | load p => cases h
  | store v p => rfl
  | other n => rfl

/-- A non-store instruction leaves the store-pointer set unchanged. -/
theorem storeStep_skip (acc : List Nat) (i : KInstr) (h : isStoreInstr i = false) :
    storeStep acc i = acc := by
  cases i with
  | load p => rfl
  | store v p => cases h
  | other n => rfl

/-- Without loads the collected load-pointer set stays empty. -/
theorem collectLoadValues_nil (instrs : List KInstr)
    (h : ∀ i ∈ instrs, isLoadInstr i = false) : collectLoadValues instrs = [] := by
  unfold collectLoadValues
  have H : ∀ (l : List KInstr) (acc : List Nat), (∀ i ∈ l, isLoadInstr i = false) →
      l.foldl loadStep acc = acc := by
    intro l
    induction l with
    | nil => intro acc _; rfl
    | cons i is ih =>
      intro acc hl
      rw [List.foldl_cons, loadStep_skip acc i (hl i (List.mem_cons_self i is))]
      exact ih acc (fun j hj => hl j (List.mem_cons_of_mem i hj))
  exact H instrs [] h

/-- Without stores the collected store-pointer set stays empty. -/
theorem collectStoreValues_nil (instrs : List KInstr)
    (h : ∀ i ∈ instrs, isStoreInstr i = false) : collectStoreValues instrs = [] := by
  unfold collectStoreValues
  have H : ∀ (l : List KInstr) (acc : List Nat), (∀ i ∈ l, isStoreInstr i = false) →
      l.foldl storeStep acc = acc := by
    intro l
    induction l with
    | nil => intro acc _; rfl
    | cons i is ih =>
      intro acc hl
      rw [List.foldl_cons, storeStep_skip acc i (hl i (List.mem_cons_self i is))]
      exact ih acc (fun j hj => hl j (List.mem_cons_of_mem i hj))
  exact H instrs [] h

/-- Claim C8: a kernel function without load instructions makes `MemoryRead`
a single block returning the i64 constant 0, with the warning logged; a
kernel function without store instructions does the same for
`MemoryWrite`. -/
theorem c8_empty_memory_functions (instrs : List KInstr) :
    ((∀ i ∈ instrs, isLoadInstr i = false) →
      buildMemoryRead instrs = ⟨MExpr.constInt 0, true⟩) ∧
    ((∀ i ∈ instrs, isStoreInstr i = false) →
      buildMemoryWrite instrs = ⟨MExpr.constInt 0, true⟩) := by
  constructor
  · intro h
    unfold buildMemoryRead
    rw [collectLoadValues_nil instrs h]
    rfl
  · intro h
    unfold buildMemoryWrite
    rw [collectStoreValues_nil instrs h]
    rfl

/-- Witness for claim C8 on a kernel function holding one arithmetic
instruction and no memory operations. -/
theorem c8_empty_memory_functions_witness :
    (∀ i ∈ [KInstr.other 3], isLoadInstr i = false) ∧
    (∀ i ∈ [KInstr.other 3], isStoreInstr i = false) ∧
    buildMemoryRead [KInstr.other 3] = ⟨MExpr.constInt 0, true⟩ ∧
    buildMemoryWrite [KInstr.other 3] = ⟨MExpr.constInt 0, true⟩ :=
  ⟨by decide, by decide,
   (c8_empty_memory_functions [KInstr.other 3]).1 (by decide),
   (c8_empty_memory_functions [KInstr.other 3]).2 (by decide)⟩

/-- Behaviour of the selector-chain fold from a non-null `priorValue` `p`
and counter `k`: the fold produces a chain whose evaluation falls through
to `p` whenever the argument matches none of the indices `k, ..., k+len-1`,
and whose comparison indices all come from `p` or are at least `k`. -/
theorem chainFold_spec (conv : Nat → Int) (arg : Int) :
    ∀ (vs : List Nat) (p : MExpr) (k : Nat),
      (∀ j : Nat, k ≤ j → j < k + vs.length → arg ≠ (j : Int)) →
      ∃ q, vs.foldl chainStep (some p, k) = (some q, k + vs.length) ∧
        evalMExpr conv arg q = evalMExpr conv arg p ∧
        (∀ i ∈ selectIdxList q, i ∈ selectIdxList p ∨ k ≤ i) := by
  intro vs
  induction vs with
  | nil =>
    intro p k _
    exact ⟨p, by simp, rfl, fun i hi => Or.inl hi⟩
  | cons v vs2 ih =>
    intro p k hj
    have hne : arg ≠ (k : Int) :=
      hj k (Nat.le_refl k) (by simp only [List.length_cons]; omega)
    have hj2 : ∀ j : Nat, k + 1 ≤ j → j < (k + 1) + vs2.length → arg ≠ (j : Int) := by
      intro j h1 h2
      exact hj j (by omega) (by simp only [List.length_cons]; omega)
    rcases ih (MExpr.selectIdx k (MExpr.convItem k) p) (k + 1) hj2 with
      ⟨q, hfold, heval, hidx⟩
    refine ⟨q, ?_, ?_, ?_⟩
    · rw [List.foldl_cons]
      show vs2.foldl chainStep (some (MExpr.selectIdx k (MExpr.convItem k) p), k + 1) = _
      rw [hfold]
      exact congrArg (Prod.mk (some q)) (by simp only [List.length_cons]; omega)
    · rw [heval]
      simp [evalMExpr, hne]
    · intro i hi
      rcases hidx i hi with h1 | h2
      · simp only [selectIdxList, List.nil_append, List.mem_cons] at h1
        rcases h1 with h1 | h1
        · exact Or.inr (by omega)
        · exact Or.inl h1
      · exact Or.inr (by omega)

/-- The chain over a nonempty pointer list returns the converted value of
index 0 for any argument matching none of the indices `1, ..., n-1`, and
never compares the argument against 0. -/
theorem buildChain_spec (conv : Nat → Int) (arg : Int) (vals : List Nat)
    (hne : vals ≠ [])
    (hj : ∀ j ∈ List.range vals.length, 1 ≤ j → arg ≠ (j : Int)) :
    ∃ q, buildChain vals = some q ∧ evalMExpr conv arg q = conv 0 ∧
      0 ∉ selectIdxList q := by
  cases vals with
  | nil => cases hne rfl
  | cons v vs =>
    have hj2 : ∀ j : Nat, 1 ≤ j → j < 1 + vs.length → arg ≠ (j : Int) := by
      intro j h1 h2
      exact hj j (List.mem_range.mpr (by simpa using by omega)) h1
    rcases chainFold_spec conv arg vs (MExpr.convItem 0) 1 hj2 with ⟨q, hfold, heval, hidx⟩
    refine ⟨q, ?_, ?_, ?_⟩
    · unfold buildChain
      rw [List.foldl_cons]
      show (vs.foldl chainStep (some (MExpr.convItem 0), 1)).1 = some q
      rw [hfold]
    · exact heval
    · intro h0
      rcases hidx 0 h0 with h | h
      · simp [selectIdxList] at h
      · omega

/-- Claim C9: the pointer at index 0 is the base of the selector chain with
no comparison against the argument (no chain index equals 0), so both
`MemoryRead` and `MemoryWrite` return the converted value of the index-0
pointer for every argument that equals none of the indices `1..n-1` —
out-of-range selector values are silently aliased to index 0. -/
theorem c9_selector_chain_base (instrs : List KInstr) (conv : Nat → Int) (arg : Int)
    (hl : collectLoadValues instrs ≠ [])
    (ha : ∀ j ∈ List.range (collectLoadValues instrs).length, 1 ≤ j → arg ≠ (j : Int))
    (hst : collectStoreValues instrs ≠ [])
    (hb : ∀ j ∈ List.range (collectStoreValues instrs).length, 1 ≤ j → arg ≠ (j : Int)) :
    evalMExpr conv arg (buildMemoryRead instrs).retVal = conv 0 ∧
    0 ∉ selectIdxList (buildMemoryRead instrs).retVal ∧
    evalMExpr conv arg (buildMemoryWrite instrs).retVal = conv 0 ∧
    0 ∉ selectIdxList (buildMemoryWrite instrs).retVal := by
  rcases buildChain_spec conv arg _ hl ha with ⟨q, hq, he, hn⟩
  rcases buildChain_spec conv arg _ hst hb with ⟨q2, hq2, he2, hn2⟩
  unfold buildMemoryRead buildMemoryWrite
  rw [hq, hq2]
  exact ⟨he, hn, he2, hn2⟩

/-- Witness for claim C9: two load pointers and one store pointer, with the
out-of-range selector value 5. -/
theorem c9_selector_chain_base_witness :
    collectLoadValues [KInstr.load 100, KInstr.load 200, KInstr.store 7 300] ≠ [] ∧
    collectStoreValues [KInstr.load 100, KInstr.load 200, KInstr.store 7 300] ≠ [] ∧
    evalMExpr (fun n => (n : Int) * 10) 5
        (buildMemoryRead [KInstr.load 100, KInstr.load 200, KInstr.store 7 300]).retVal =
      (fun n => (n : Int) * 10) 0 ∧
    evalMExpr (fun n => (n : Int) * 10) 5
        (buildMemoryWrite [KInstr.load 100, KInstr.load 200, KInstr.store 7 300]).retVal =
      (fun n => (n : Int) * 10) 0 :=
  ⟨by decide, by decide,
   (c9_selector_chain_base [KInstr.load 100, KInstr.load 200, KInstr.store 7 300]
      (fun n => (n : Int) * 10) 5 (by decide) (by decide) (by decide) (by decide)).1,
   (c9_selector_chain_base [KInstr.load 100, KInstr.load 200, KInstr.store 7 300]
      (fun n => (n : Int) * 10) 5 (by decide) (by decide) (by decide) (by decide)).2.2.1⟩

/-- Flattening commutes with mapping the block contents. -/
theorem flatten_map_content (f : HBlock → Nat) :
    ∀ (fs : List (List HBlock)),
      (fs.flatten).map f = (fs.map (List.map f)).flatten := by
  intro fs
  induction fs with
  | nil => rfl
  | cons g gs ih => simp [List.flatten_cons, ih]

/-- When the blocks of the flattened module carry the metadata ids
`k0, k0+1, ...` in order, the `BlockID`-based search for id `k0 + n`
returns exactly the block at position `n`. -/
theorem find_blockId_pos :
    ∀ (L : List HBlock) (k0 n : Nat),
      L.map HBlock.blockId = (natRangeFrom k0 L.length).map (fun k => (k : Int)) →
      L.find? (fun b => b.blockId = ((k0 + n : Nat) : Int)) = listAt L n := by
  intro L
  induction L with
  | nil => intro k0 n _; rfl
  | cons b bs ih =>
    intro k0 n h
    have hlen : (b :: bs).length = bs.length + 1 := rfl
    rw [hlen] at h
    have hcons : (b :: bs).map HBlock.blockId = b.blockId :: bs.map HBlock.blockId := rfl
    have hrange : (natRangeFrom k0 (bs.length + 1)).map (fun k => (k : Int)) =
        ((k0 : Int)) :: (natRangeFrom (k0 + 1) bs.length).map (fun k => (k : Int)) := rfl
    rw [hcons, hrange] at h
    have hb : b.blockId = (k0 : Int) := (List.cons.injEq _ _ _ _ ▸ h).1
    have hbs : bs.map HBlock.blockId =
        (natRangeFrom (k0 + 1) bs.length).map (fun k => (k : Int)) :=
      (List.cons.injEq _ _ _ _ ▸ h).2
    cases n with
    | zero =>
      show List.find? (fun x => decide (x.blockId = ((k0 + 0 : Nat) : Int))) (b :: bs) = some b
      rw [List.find?_cons]
      have hd : (decide (b.blockId = ((k0 + 0 : Nat) : Int))) = true := by
        simp only [decide_eq_true_eq, hb, Nat.add_zero]
      rw [hd]
    | succ m =>
      show List.find? (fun x => decide (x.blockId = ((k0 + (m + 1) : Nat) : Int))) (b :: bs) =
        listAt bs m
      rw [List.find?_cons]
      have hd : (decide (b.blockId = ((k0 + (m + 1) : Nat) : Int))) = false := by
        simp only [decide_eq_false_iff_not, hb]
        intro hcontra
        have : k0 = k0 + (m + 1) := by exact_mod_cast hcontra
        omega
      rw [hd]
      have := ih (k0 + 1) m hbs
      rw [show (k0 + 1) + m = k0 + (m + 1) by omega] at this
      exact this

/-- Claim C10: the hasher resolves an integer id positionally — the block
map is the module flattened function-then-block with a counter from 0, and
the resolved content is independent of the `BlockID` metadata; the sort
applied to the per-block string list is over the empty range
`[begin, begin)` and is the identity, so the block strings stay in
ascending order of the sorted positional ids; and the positional resolution
agrees with `BlockID`-based resolution exactly when the ids were assigned
in that same iteration order starting at 0. -/
theorem c10_hasher_positional_resolution (fs fs2 : List (List HBlock))
    (ids : List Nat) (l : List (Option Nat)) (n : Nat)
    (hsame : fs.map (List.map HBlock.content) = fs2.map (List.map HBlock.content))
    (hpos : (buildBlockMap fs).map HBlock.blockId =
      (natRangeFrom 0 (buildBlockMap fs).length).map (fun k => (k : Int))) :
    blockMapAt fs n = listAt (buildBlockMap fs) n ∧
    optContent (blockMapAt fs n) = optContent (blockMapAt fs2 n) ∧
    sortStrRange l 0 0 = l ∧
    kernelBlockSeq fs ids =
      (ids.insertionSort (fun a b => a ≤ b)).map
        (fun b => optContent (blockMapAt fs b)) ∧
    List.Sorted (fun a b : Nat => a ≤ b) (ids.insertionSort (fun a b => a ≤ b)) ∧
    blockIdAt fs (n : Int) = blockMapAt fs n := by
  refine ⟨rfl, ?_, rfl, rfl, List.sorted_insertionSort _ ids, ?_⟩
  · show optContent (listAt fs.flatten n) = optContent (listAt fs2.flatten n)
    have h1 : ∀ (gs : List (List HBlock)),
        optContent (listAt gs.flatten n) = listAt ((gs.flatten).map HBlock.content) n := by
      intro gs
      rw [listAt_map]
      rfl
    rw [h1 fs, h1 fs2, flatten_map_content HBlock.content fs,
      flatten_map_content HBlock.content fs2, hsame]
  · show (buildBlockMap fs).find? (fun b => b.blockId = (n : Int)) =
      listAt (buildBlockMap fs) n
    have := find_blockId_pos (buildBlockMap fs) 0 n hpos
    rw [show ((0 + n : Nat) : Int) = (n : Int) by omega] at this
    exact this

/-- Witness for claim C10 at a concrete two-function module whose blocks
carry ids 0 and 1 in iteration order. -/
theorem c10_hasher_positional_resolution_witness :
    ([[HBlock.mk 0 10], [HBlock.mk 1 20]].map (List.map HBlock.content) =
      ([[HBlock.mk 5 10], [HBlock.mk 9 20]].map (List.map HBlock.content)) ∧
     (buildBlockMap [[HBlock.mk 0 10], [HBlock.mk 1 20]]).map HBlock.blockId =
      (natRangeFrom 0
          (buildBlockMap [[HBlock.mk 0 10], [HBlock.mk 1 20]]).length).map
        (fun k => (k : Int))) ∧
    kernelBlockSeq [[HBlock.mk 0 10], [HBlock.mk 1 20]] [1, 0] =
      (([1, 0] : List Nat).insertionSort (fun a b => a ≤ b)).map
        (fun b => optContent (blockMapAt [[HBlock.mk 0 10], [HBlock.mk 1 20]] b)) ∧
    blockIdAt [[HBlock.mk 0 10], [HBlock.mk 1 20]] ((1 : Nat) : Int) =
      blockMapAt [[HBlock.mk 0 10], [HBlock.mk 1 20]] 1 :=
  ⟨⟨by decide, by decide⟩,
   (c10_hasher_positional_resolution [[HBlock.mk 0 10], [HBlock.mk 1 20]]
      [[HBlock.mk 5 10], [HBlock.mk 9 20]] [1, 0] [] 1 (by decide) (by decide)).2.2.2.1,
   (c10_hasher_positional_resolution [[HBlock.mk 0 10], [HBlock.mk 1 20]]
      [[HBlock.mk 5 10], [HBlock.mk 9 20]] [1, 0] [] 1 (by decide) (by decide)).2.2.2.2.2⟩

end Tik
